import Mathlib

/-!
# Booking backend (`server.js`): sanitizer, validators, rate limiter, handler

A shallow embedding of the request-validation and rate-limiting code of
`src/server.js`, followed by the theorems that settle the specification's
claims about it.

Conventions of the embedding:

* a JavaScript string is the list of its UTF-16 code units (`JsString`), so
  `length`, `substring` and the regular-expression character classes count
  and test code units exactly as the engine does;
* `Date.now()` and time values are integers (milliseconds); the counters of
  the rate limiter are natural numbers;
* `RegExp.prototype.test` on the three anchored patterns of the source is
  regular-language membership of the whole string, decided here by
  Brzozowski derivatives (`Re.test`);
* what the handler reads from the runtime and from collaborators (the mail
  transport, the environment variables, `toLowerCase`, the `Date` parser and
  the clock) is collected in `Env`.
-/

namespace Booking

/-! ## JavaScript values and strings -/

/-- A JavaScript string, as the sequence of its UTF-16 code units. -/
abbrev JsString := List Nat

/-- Code units of a string literal whose characters all lie in the basic
multilingual plane. -/
def js (s : String) : JsString := s.toList.map Char.toNat

/-- A value found in a parsed JSON body (or `undefined` for an absent key).
Only the distinction between strings and everything else is observed by
`sanitizeInput`. -/
inductive JsValue
  | str (s : JsString)
  | undefined
  | null
  | bool (b : Bool)
  | number (n : Int)
  | object
  deriving DecidableEq

/-- The test `typeof input === 'string'`. -/
def JsValue.isString : JsValue → Bool
  | .str _ => true
  | _ => false

/-- ECMAScript `WhiteSpace` and `LineTerminator` code units: the characters
removed by `String.prototype.trim` and matched by `\s`. -/
def isWhiteSpace (c : Nat) : Bool :=
  c == 0x09 || c == 0x0A || c == 0x0B || c == 0x0C || c == 0x0D || c == 0x20 ||
  c == 0xA0 || c == 0x1680 || (0x2000 ≤ c && c ≤ 0x200A) || c == 0x2028 ||
  c == 0x2029 || c == 0x202F || c == 0x205F || c == 0x3000 || c == 0xFEFF

/-- The method `String.prototype.trim`. -/
def trim (s : JsString) : JsString :=
  (s.dropWhile isWhiteSpace).rdropWhile isWhiteSpace

/-- The character class `[<>]`. -/
def isAngle (c : Nat) : Bool := c == 60 || c == 62

/-- The call `.replace(/[<>]/g, '')`. -/
def removeAngles (s : JsString) : JsString := s.filter (fun c => !isAngle c)

/-- The function `sanitizeInput` (server.js, lines 32-38). -/
def sanitizeInput : JsValue → JsString
  | .str input => (removeAngles (trim input)).take 1000
  | _ => []

/-! ## Regular expressions -/

/-- Regular expressions over code units, with character classes given by
predicates. `empty` matches nothing; it only arises in derivatives. -/
inductive Re
  | empty
  | eps
  | cls (p : Nat → Bool)
  | alt (a b : Re)
  | seq (a b : Re)
  | star (a : Re)

namespace Re

/-- Whether the expression matches the empty string. -/
def nullable : Re → Bool
  | empty => false
  | eps => true
  | cls _ => false
  | alt a b => a.nullable || b.nullable
  | seq a b => a.nullable && b.nullable
  | star _ => true

/-- Brzozowski derivative with respect to one code unit. -/
def deriv : Re → Nat → Re
  | empty, _ => empty
  | eps, _ => empty
  | cls p, c => if p c then eps else empty
  | alt a b, c => alt (a.deriv c) (b.deriv c)
  | seq a b, c =>
    if a.nullable then alt (seq (a.deriv c) b) (b.deriv c) else seq (a.deriv c) b
  | star a, c => seq (a.deriv c) (star a)

/-- The call `/^r$/.test(s)`: does `r` match the whole of `s`. -/
def test : Re → JsString → Bool
  | r, [] => r.nullable
  | r, c :: s => (r.deriv c).test s

/-- A single literal character. -/
def chr (c : Nat) : Re := cls (fun x => x == c)

/-- A character range `[lo-hi]`. -/
def range (lo hi : Nat) : Re := cls (fun x => lo ≤ x && x ≤ hi)

/-- The quantifier `r?`. -/
def opt (r : Re) : Re := alt r eps

/-- The quantifier `r+`. -/
def plus (r : Re) : Re := seq r (star r)

/-- The quantifier `r{0,n}`. -/
def upTo : Nat → Re → Re
  | 0, _ => eps
  | n + 1, r => opt (seq r (upTo n r))

/-- Declarative matching relation: `Matches r s` when `s` belongs to the
language of `r`. -/
inductive Matches : Re → List Nat → Prop
  | eps : Matches .eps []
  | cls {p : Nat → Bool} {c : Nat} : p c = true → Matches (.cls p) [c]
  | altL {a b : Re} {s : List Nat} : Matches a s → Matches (.alt a b) s
  | altR {a b : Re} {s : List Nat} : Matches b s → Matches (.alt a b) s
  | seq {a b : Re} {s t : List Nat} :
      Matches a s → Matches b t → Matches (.seq a b) (s ++ t)
  | starNil {a : Re} : Matches (.star a) []
  | starCons {a : Re} {s t : List Nat} :
      Matches a s → Matches (.star a) t → Matches (.star a) (s ++ t)

end Re

/-! ## Validators -/

/-- The class `[^\s@]`. -/
def notSpaceAt : Re := .cls (fun c => !(isWhiteSpace c || c == 64))

/-- The pattern `/^[^\s@]+@[^\s@]+\.[^\s@]+$/`. -/
def emailRegex : Re :=
  .seq (.plus notSpaceAt)
    (.seq (.chr 64) (.seq (.plus notSpaceAt) (.seq (.chr 46) (.plus notSpaceAt))))

/-- The function `isValidEmail` (server.js, lines 41-44). -/
def isValidEmail (email : JsString) : Bool := emailRegex.test email

/-- The class `[\s\-\(\)]`. -/
def isPhoneSeparator (c : Nat) : Bool :=
  isWhiteSpace c || c == 45 || c == 40 || c == 41

/-- The call `.replace(/[\s\-\(\)]/g, '')`. -/
def removeSeparators (s : JsString) : JsString := s.filter (fun c => !isPhoneSeparator c)

/-- The pattern `/^[\+]?[1-9][\d]{0,15}$/`. -/
def phoneRegex : Re :=
  .seq (.opt (.chr 43)) (.seq (.range 49 57) (.upTo 15 (.range 48 57)))

/-- The function `isValidPhone` (server.js, lines 47-50). -/
def isValidPhone (phone : JsString) : Bool := phoneRegex.test (removeSeparators phone)

/-- The pattern `/^([0-1]?[0-9]|2[0-3]):[0-5][0-9]$/` (server.js, line 177). -/
def timeRegex : Re :=
  .seq (.alt (.seq (.opt (.range 48 49)) (.range 48 57)) (.seq (.chr 50) (.range 48 51)))
    (.seq (.chr 58) (.seq (.range 48 53) (.range 48 57)))

/-! ## Rate limiter -/

/-- The constant `RATE_LIMIT_WINDOW`: 15 minutes in milliseconds. -/
def RATE_LIMIT_WINDOW : Nat := 15 * 60 * 1000

/-- The constant `MAX_REQUESTS`. -/
def MAX_REQUESTS : Nat := 5

/-- A value stored in `requestCounts`. -/
structure Entry where
  count : Nat
  resetTime : Nat
  deriving DecidableEq

/-- The map `requestCounts`; a key is a client address, `none` standing for
`undefined`. -/
abbrev RequestCounts := Option JsString → Option Entry

/-- The map as created at start-up: `new Map()`. -/
def emptyCounts : RequestCounts := fun _ => none

/-- The method `Map.prototype.set`. -/
def mapSet (m : RequestCounts) (k : Option JsString) (v : Entry) : RequestCounts :=
  fun k2 => if k2 = k then some v else m k2

/-- The fields of a request read by the rate limiter. -/
structure Request where
  ip : Option JsString
  remoteAddress : Option JsString

/-- The expression `req.ip || req.connection.remoteAddress`. -/
def clientIp (req : Request) : Option JsString :=
  match req.ip with
  | some s => if s.isEmpty then req.remoteAddress else some s
  | none => req.remoteAddress

/-- A response `res.status(status).json({success, message})`. -/
structure Response where
  status : Nat
  success : Bool
  message : String
  deriving DecidableEq

/-- What a middleware does with a request: answer it, or call `next()`. -/
inductive Outcome
  | next
  | respond (r : Response)
  deriving DecidableEq

/-- The 429 answer of the rate limiter. -/
def tooManyRequests : Outcome :=
  .respond ⟨429, false, "Too many requests. Please try again later."⟩

/-- The middleware `rateLimit` (server.js, lines 53-76), called at time `now`
(the value of `Date.now()`); it returns the updated map and the outcome. -/
def rateLimit (counts : RequestCounts) (req : Request) (now : Nat) :
    RequestCounts × Outcome :=
  let ip := clientIp req
  match counts ip with
  | none => (mapSet counts ip ⟨1, now + RATE_LIMIT_WINDOW⟩, .next)
  | some userData =>
    let updated : Entry :=
      if now > userData.resetTime then ⟨1, now + RATE_LIMIT_WINDOW⟩
      else ⟨userData.count + 1, userData.resetTime⟩
    if updated.count > MAX_REQUESTS then (mapSet counts ip updated, tooManyRequests)
    else (mapSet counts ip updated, .next)

/-- The outcomes of a sequence of calls of `rateLimit`, each request paired
with its arrival time, threading the map through. -/
def rateLimitAll (counts : RequestCounts) : List (Request × Nat) → List Outcome
  | [] => []
  | (req, now) :: rest =>
    (rateLimit counts req now).2 :: rateLimitAll (rateLimit counts req now).1 rest

/-- The map after a sequence of calls of `rateLimit`. -/
def countsAfter (counts : RequestCounts) : List (Request × Nat) → RequestCounts
  | [] => counts
  | (req, now) :: rest => countsAfter (rateLimit counts req now).1 rest

/-- The effect of one call of `rateLimit` on the entry of the calling
client, with the outcome. -/
def stepEntry (e : Option Entry) (now : Nat) : Entry × Outcome :=
  match e with
  | none => (⟨1, now + RATE_LIMIT_WINDOW⟩, .next)
  | some userData =>
    let updated : Entry :=
      if now > userData.resetTime then ⟨1, now + RATE_LIMIT_WINDOW⟩
      else ⟨userData.count + 1, userData.resetTime⟩
    if updated.count > MAX_REQUESTS then (updated, tooManyRequests) else (updated, .next)

/-- The outcomes for one client, as a function of its entry and of the
arrival times of its requests. -/
def runEntry (e : Option Entry) : List Nat → List Outcome
  | [] => []
  | now :: rest => (stepEntry e now).2 :: runEntry (some (stepEntry e now).1) rest

/-- The entry of the client after its requests at the given times. -/
def entryAfter (e : Option Entry) : List Nat → Option Entry
  | [] => e
  | now :: rest => entryAfter (some (stepEntry e now).1) rest

/-- Index of the request that opened the window request `i` falls in: the
first request opens a window, and so does each request arriving strictly
later than the opening time of the current window plus 15 minutes. -/
def windowOpener (ts : List Nat) : Nat → Nat
  | 0 => 0
  | i + 1 =>
    if ts.getD (i + 1) 0 > ts.getD (windowOpener ts i) 0 + RATE_LIMIT_WINDOW then i + 1
    else windowOpener ts i

/-- Position of request `i` among the requests counted in its window, the
opening request being the 1st. -/
def positionInWindow (ts : List Nat) (i : Nat) : Nat := i + 1 - windowOpener ts i

/-- Number of admitted requests whose arrival time lies in the interval
`[a, a + len]`. -/
def admittedWithin (a len : Nat) (ts : List Nat) (out : List Outcome) : Nat :=
  ((ts.zip out).filter
    (fun p => decide (a ≤ p.1) && decide (p.1 ≤ a + len) && decide (p.2 = Outcome.next))).length

/-- A burst of `n` admitted requests inside one interval of length `len`:
in some state of the map reached from start-up (by any earlier requests
`history`), some sequence of requests of one client with non-decreasing
arrival times has `n` admitted requests whose arrival times all lie in one
interval `[a, a + len]`. -/
def BurstAttainable (n len : Nat) : Prop :=
  ∃ (history : List (Request × Nat)) (ip : Option JsString)
      (reqs : List (Request × Nat)) (a : Nat),
    (∀ r ∈ reqs, clientIp r.1 = ip) ∧
    (reqs.map Prod.snd).Pairwise (· ≤ ·) ∧
    n ≤ admittedWithin a len (reqs.map Prod.snd)
      (rateLimitAll (countsAfter emptyCounts history) reqs)

/-! ## Booking handler -/

/-- The body of a booking request, `req.body`. -/
structure Body where
  firstName : JsValue
  lastName : JsValue
  email : JsValue
  phone : JsValue
  service : JsValue
  date : JsValue
  time : JsValue
  notes : JsValue

/-- The object `sanitizedData`. -/
structure SanitizedData where
  firstName : JsString
  lastName : JsString
  email : JsString
  phone : JsString
  service : JsString
  date : JsString
  time : JsString
  notes : JsString

/-- What the handler reads from outside the repository: whether
`transporter` was created, the two environment variables, the built-in
`String.prototype.toLowerCase`, the time value of `new Date(s)` (`none` for
an invalid date, whose time value is NaN), the time value of local midnight
today, and whether each of the two `sendMail` calls resolves. -/
structure Env where
  transporter : Bool
  emailUser : Option JsString
  emailPass : Option JsString
  toLowerCase : JsString → JsString
  parseDate : JsString → Option Int
  today : Int
  sendAdmin : SanitizedData → Bool
  sendClient : SanitizedData → Bool

/-- Truthiness of an environment variable: defined and not empty. -/
def truthy : Option JsString → Bool
  | some s => !s.isEmpty
  | none => false

/-- The mail service is configured: both guards at the head of the handler
(server.js, lines 101-114) are passed. -/
def Env.configured (env : Env) : Bool :=
  env.transporter && truthy env.emailUser && truthy env.emailPass

/-- The comparison `selectedDate < today` of two `Date` objects: a
comparison of time values, false when the first is NaN. -/
def dateLt : Option Int → Int → Bool
  | some t, today => decide (t < today)
  | none, _ => false

/-- The construction of `sanitizedData` (server.js, lines 128-137). -/
def sanitize (env : Env) (body : Body) : SanitizedData :=
  { firstName := sanitizeInput body.firstName
    lastName := sanitizeInput body.lastName
    email := env.toLowerCase (sanitizeInput body.email)
    phone := sanitizeInput body.phone
    service := sanitizeInput body.service
    date := sanitizeInput body.date
    time := sanitizeInput body.time
    notes := sanitizeInput body.notes }

/-- The required-field test (server.js, lines 140-141): true when one of
the seven required fields is the empty string. -/
def missingRequired (d : SanitizedData) : Bool :=
  d.firstName.isEmpty || d.lastName.isEmpty || d.email.isEmpty || d.phone.isEmpty ||
  d.service.isEmpty || d.date.isEmpty || d.time.isEmpty

/-- The handler of `POST /api/book-appointment` (server.js, lines 98-275),
after the rate limiter has called `next()`. -/
def bookAppointment (env : Env) (body : Body) : Response :=
  if !env.transporter then
    ⟨500, false, "Email service is not configured. Please contact support."⟩
  else if !truthy env.emailUser || !truthy env.emailPass then
    ⟨500, false, "Email configuration is missing. Please contact support."⟩
  else
    let sanitizedData := sanitize env body
    if missingRequired sanitizedData then
      ⟨400, false, "Please fill in all required fields"⟩
    else if !isValidEmail sanitizedData.email then
      ⟨400, false, "Please enter a valid email address"⟩
    else if !isValidPhone sanitizedData.phone then
      ⟨400, false, "Please enter a valid phone number"⟩
    else if dateLt (env.parseDate sanitizedData.date) env.today then
      ⟨400, false, "Please select a future date for your appointment"⟩
    else if !timeRegex.test sanitizedData.time then
      ⟨400, false, "Please enter a valid time"⟩
    else if !env.sendAdmin sanitizedData then
      ⟨500, false, "An error occurred while processing your request. Please try again later."⟩
    else if !env.sendClient sanitizedData then
      ⟨500, false, "An error occurred while processing your request. Please try again later."⟩
    else
      ⟨200, true,
        "Appointment request submitted successfully. We will contact you shortly to confirm."⟩

/-! ## Statements of the specification -/

/-- The validation rules in the order the specification lists them, each
with its message; the test of a rule is the one the handler performs, and
the rule holds of the sanitized data when the test is true. -/
def validationRules (env : Env) : List ((SanitizedData → Bool) × String) :=
  [ (fun d => !missingRequired d, "Please fill in all required fields"),
    (fun d => isValidEmail d.email, "Please enter a valid email address"),
    (fun d => isValidPhone d.phone, "Please enter a valid phone number"),
    (fun d => !dateLt (env.parseDate d.date) env.today,
      "Please select a future date for your appointment"),
    (fun d => timeRegex.test d.time, "Please enter a valid time") ]

/-- Message of the first rule, in the fixed order, that fails. -/
def firstFailure (env : Env) (d : SanitizedData) : Option String :=
  ((validationRules env).find? (fun rule => !rule.1 d)).map Prod.snd

/-- The date requirement as the specification words it: the field parses
as a date that is on or after the current date (time of day zeroed). -/
def dateOnOrAfterToday (env : Env) (s : JsString) : Prop :=
  ∃ t, env.parseDate s = some t ∧ env.today ≤ t

/-- The code unit is an ASCII digit. -/
def isDigit (c : Nat) : Prop := 48 ≤ c ∧ c ≤ 57

/-- The phone shape of the specification: an optional leading `+`, one
digit 1-9, then 0 to 15 further digits and nothing else. -/
def PhoneShape (q : JsString) : Prop :=
  ∃ (sign : JsString) (d : Nat) (ds : JsString),
    q = sign ++ d :: ds ∧ (sign = [] ∨ sign = [43]) ∧ (49 ≤ d ∧ d ≤ 57) ∧
    ds.length ≤ 15 ∧ ∀ c ∈ ds, isDigit c

/-- A two-digit minute field denoting 00-59. -/
def IsMinute (m1 m2 : Nat) : Prop := isDigit m1 ∧ isDigit m2 ∧ (m1 - 48) * 10 + (m2 - 48) ≤ 59

/-- The time format of the specification: exactly two hour digits denoting
00-23, a colon, and exactly two minute digits denoting 00-59. -/
def IsHHMM (t : JsString) : Prop :=
  ∃ h1 h2 m1 m2 : Nat, t = [h1, h2, 58, m1, m2] ∧ isDigit h1 ∧ isDigit h2 ∧
    (h1 - 48) * 10 + (h2 - 48) ≤ 23 ∧ IsMinute m1 m2

/-- A time with a single hour digit: one digit 0-9, a colon, and two minute
digits denoting 00-59. -/
def IsHMM (t : JsString) : Prop :=
  ∃ h m1 m2 : Nat, t = [h, 58, m1, m2] ∧ isDigit h ∧ IsMinute m1 m2

/-- No leading whitespace character. -/
def NoLeadingSpace (s : JsString) : Prop := ∀ c, s.head? = some c → isWhiteSpace c = false

/-- No trailing whitespace character. -/
def NoTrailingSpace (s : JsString) : Prop := ∀ c, s.getLast? = some c → isWhiteSpace c = false

/-! ## Sample inputs -/

/-- A request whose client address is `ip`. -/
def requestFrom (ip : String) : Request := ⟨some (js ip), none⟩

/-- The valid booking of `test-api.js` (`testBookingEndpoint`), with the
given date and time fields. -/
def sampleBooking (date time : String) : Body :=
  { firstName := .str (js "Test")
    lastName := .str (js "User")
    email := .str (js "test@example.com")
    phone := .str (js "+1234567890")
    service := .str (js "Facial Treatment")
    date := .str (js date)
    time := .str (js time)
    notes := .str (js "This is a test booking") }

/-- The invalid booking of `test-api.js` (`testInvalidBooking`): no
`lastName`, and an email and a phone that are both malformed. -/
def invalidBooking : Body :=
  { firstName := .str (js "Test")
    lastName := .undefined
    email := .str (js "invalid-email")
    phone := .str (js "invalid-phone")
    service := .undefined
    date := .undefined
    time := .undefined
    notes := .undefined }

/-- Lower-casing of the ASCII letters, an instance of `toLowerCase` on
ASCII strings. -/
def asciiLower (s : JsString) : JsString :=
  s.map (fun c => if 65 ≤ c ∧ c ≤ 90 then c + 32 else c)

/-- A sample environment: the mail service configured and working, the
clock at 2025-01-15 00:00 (UTC), and a `Date` parser that knows three
date-only strings and yields an invalid date on everything else. -/
def sampleEnv : Env :=
  { transporter := true
    emailUser := some (js "clinic@example.com")
    emailPass := some (js "secret")
    toLowerCase := asciiLower
    parseDate := fun s =>
      if s = js "2025-01-14" then some 1736812800000
      else if s = js "2025-01-15" then some 1736899200000
      else if s = js "2025-01-20" then some 1737331200000
      else none
    today := 1736899200000
    sendAdmin := fun _ => true
    sendClient := fun _ => true }

/-! ## Correctness of the matcher -/

namespace Re

theorem not_matches_empty (s : List Nat) : ¬ Matches .empty s := by
  intro h
  cases h

theorem matches_eps_iff {s : List Nat} : Matches .eps s ↔ s = [] := by
  constructor
  · intro h
    cases h
    rfl
  · rintro rfl
    exact Matches.eps

theorem matches_cls_iff {p : Nat → Bool} {s : List Nat} :
    Matches (.cls p) s ↔ ∃ c, s = [c] ∧ p c = true := by
  constructor
  · intro h
    cases h with
    | cls hc => exact ⟨_, rfl, hc⟩
  · rintro ⟨c, rfl, hc⟩
    exact Matches.cls hc

theorem matches_alt_iff {a b : Re} {s : List Nat} :
    Matches (.alt a b) s ↔ Matches a s ∨ Matches b s := by
  constructor
  · intro h
    cases h with
    | altL h => exact Or.inl h
    | altR h => exact Or.inr h
  · rintro (h | h)
    · exact Matches.altL h
    · exact Matches.altR h

theorem matches_seq_iff {a b : Re} {u : List Nat} :
    Matches (.seq a b) u ↔ ∃ s t, u = s ++ t ∧ Matches a s ∧ Matches b t := by
  constructor
  · intro h
    cases h with
    | seq ha hb => exact ⟨_, _, rfl, ha, hb⟩
  · rintro ⟨s, t, rfl, ha, hb⟩
    exact Matches.seq ha hb

theorem nullable_iff (r : Re) : r.nullable = true ↔ Matches r [] := by
  induction r with
  | empty => simp [nullable, not_matches_empty]
  | eps => simp [nullable, matches_eps_iff]
  | cls p => simp [nullable, matches_cls_iff]
  | alt a b iha ihb => simp [nullable, matches_alt_iff, iha, ihb]
  | seq a b iha ihb =>
    rw [matches_seq_iff]
    simp only [nullable, Bool.and_eq_true, iha, ihb]
    constructor
    · rintro ⟨ha, hb⟩
      exact ⟨[], [], rfl, ha, hb⟩
    · rintro ⟨s, t, hst, ha, hb⟩
      have h := List.append_eq_nil.mp hst.symm
      rw [h.1] at ha
      rw [h.2] at hb
      exact ⟨ha, hb⟩
  | star a _ => simp [nullable, Matches.starNil]

/-- A non-empty match of `star a` starts with a non-empty match of `a`. -/
theorem matches_star_cons {a : Re} {c : Nat} {s : List Nat}
    (h : Matches (.star a) (c :: s)) :
    ∃ s1 s2, s = s1 ++ s2 ∧ Matches a (c :: s1) ∧ Matches (.star a) s2 := by
  generalize hr : Re.star a = r at h
  generalize hu : c :: s = u at h
  induction h with
  | eps => cases hr
  | cls _ => cases hr
  | altL _ _ => cases hr
  | altR _ _ => cases hr
  | seq _ _ _ _ => cases hr
  | starNil => cases hu
  | @starCons b s0 t0 h1 h2 _ ih2 =>
    cases hr
    cases s0 with
    | nil =>
      simp only [List.nil_append] at hu
      exact ih2 rfl hu
    | cons x xs =>
      simp only [List.cons_append, List.cons.injEq] at hu
      obtain ⟨rfl, rfl⟩ := hu
      exact ⟨xs, t0, rfl, h1, h2⟩

theorem deriv_iff (r : Re) (c : Nat) (s : List Nat) :
    Matches (r.deriv c) s ↔ Matches r (c :: s) := by
  induction r generalizing s with
  | empty => simp [deriv, not_matches_empty]
  | eps => simp [deriv, not_matches_empty, matches_eps_iff]
  | cls p =>
    by_cases hp : p c = true
    · simp only [deriv, hp, if_true, matches_eps_iff, matches_cls_iff]
      constructor
      · rintro rfl
        exact ⟨c, rfl, hp⟩
      · rintro ⟨d, hd, _⟩
        simp only [List.cons.injEq] at hd
        exact hd.2
    · simp only [deriv, hp, matches_cls_iff]
      constructor
      · intro h
        exact absurd h (not_matches_empty s)
      · rintro ⟨d, hd, hpd⟩
        simp only [List.cons.injEq] at hd
        rw [← hd.1] at hpd
        exact absurd hpd hp
  | alt a b iha ihb => simp [deriv, matches_alt_iff, iha, ihb]
  | seq a b iha ihb =>
    have key : Matches (.seq a b) (c :: s) ↔
        (∃ s1 t, s = s1 ++ t ∧ Matches a (c :: s1) ∧ Matches b t) ∨
          (Matches a [] ∧ Matches b (c :: s)) := by
      rw [matches_seq_iff]
      constructor
      · rintro ⟨u, t, hut, ha, hb⟩
        cases u with
        | nil =>
          simp only [List.nil_append] at hut
          rw [← hut] at hb
          exact Or.inr ⟨ha, hb⟩
        | cons x xs =>
          simp only [List.cons_append, List.cons.injEq] at hut
          obtain ⟨rfl, rfl⟩ := hut
          exact Or.inl ⟨xs, t, rfl, ha, hb⟩
      · rintro (⟨s1, t, rfl, ha, hb⟩ | ⟨ha, hb⟩)
        · exact ⟨c :: s1, t, rfl, ha, hb⟩
        · exact ⟨[], c :: s, rfl, ha, hb⟩
    rw [key]
    by_cases hn : a.nullable = true
    · simp only [deriv, hn, if_true, matches_alt_iff, matches_seq_iff, iha, ihb]
      have hn2 := (nullable_iff a).mp hn
      simp only [hn2, true_and]
    · have hn2 : ¬ Matches a [] := fun h => hn ((nullable_iff a).mpr h)
      rw [deriv, if_neg hn, matches_seq_iff]
      simp only [iha, hn2, false_and, or_false]
  | star a iha =>
    simp only [deriv, matches_seq_iff, iha]
    constructor
    · rintro ⟨s1, t, rfl, ha, hb⟩
      exact Matches.starCons ha hb
    · intro h
      exact matches_star_cons h

/-- The matcher decides the matching relation. -/
theorem test_iff (r : Re) (s : List Nat) : r.test s = true ↔ Matches r s := by
  induction s generalizing r with
  | nil => exact nullable_iff r
  | cons c s ih => rw [test, ih, deriv_iff]

end Re

/-! ## Sanitizer -/

theorem not_isAngle_of_mem_removeAngles {s : JsString} {c : Nat}
    (h : c ∈ removeAngles s) : isAngle c = false := by
  have h2 := (List.mem_filter.mp h).2
  simpa using h2

theorem not_isAngle_of_mem_sanitizeInput {v : JsValue} {c : Nat}
    (h : c ∈ sanitizeInput v) : isAngle c = false := by
  cases v with
  | str input => exact not_isAngle_of_mem_removeAngles (List.mem_of_mem_take h)
  | undefined => simp [sanitizeInput] at h
  | null => simp [sanitizeInput] at h
  | bool b => simp [sanitizeInput] at h
  | number n => simp [sanitizeInput] at h
  | object => simp [sanitizeInput] at h

theorem sanitizeInput_length_le (v : JsValue) : (sanitizeInput v).length ≤ 1000 := by
  cases v with
  | str input => exact List.length_take_le 1000 _
  | undefined => simp [sanitizeInput]
  | null => simp [sanitizeInput]
  | bool b => simp [sanitizeInput]
  | number n => simp [sanitizeInput]
  | object => simp [sanitizeInput]

theorem sanitizeInput_of_not_string {v : JsValue} (h : v.isString = false) :
    sanitizeInput v = [] := by
  cases v with
  | str input => simp [JsValue.isString] at h
  | undefined => rfl
  | null => rfl
  | bool b => rfl
  | number n => rfl
  | object => rfl

/-- The trimmed string does not start with a whitespace character. -/
theorem trim_noLeadingSpace (s : JsString) : NoLeadingSpace (trim s) := by
  intro c hc
  obtain ⟨ys, hys⟩ := List.head?_eq_some_iff.mp hc
  obtain ⟨t, ht⟩ : trim s <+: s.dropWhile isWhiteSpace :=
    List.rdropWhile_prefix isWhiteSpace _
  have h := List.head?_dropWhile_not isWhiteSpace s
  rw [← ht, hys] at h
  simpa using h

/-- The trimmed string does not end with a whitespace character. -/
theorem trim_noTrailingSpace (s : JsString) : NoTrailingSpace (trim s) := by
  intro c hc
  have hne : trim s ≠ [] := by
    intro h0
    rw [h0] at hc
    simp at hc
  have h := List.rdropWhile_last_not isWhiteSpace (s.dropWhile isWhiteSpace) hne
  have h2 : (trim s).getLast? = some ((trim s).getLast hne) := List.getLast?_eq_getLast _ hne
  rw [hc] at h2
  have h3 : c = (trim s).getLast hne := Option.some.inj h2
  rw [h3]
  simpa [trim] using h

/-- C3: for every input value, `sanitizeInput` returns a string that
contains neither `<` (code unit 60) nor `>` (code unit 62) and has at most
1000 code units; for a non-string input it returns the empty string. -/
theorem C3_sanitizeInput_no_angle_bounded (v : JsValue) :
    60 ∉ sanitizeInput v ∧ 62 ∉ sanitizeInput v ∧ (sanitizeInput v).length ≤ 1000 ∧
      (v.isString = false → sanitizeInput v = []) := by
  refine ⟨?_, ?_, sanitizeInput_length_le v, sanitizeInput_of_not_string⟩
  · intro h
    have := not_isAngle_of_mem_sanitizeInput h
    simp [isAngle] at this
  · intro h
    have := not_isAngle_of_mem_sanitizeInput h
    simp [isAngle] at this

/-- Witness of C3 at the non-string input `42`. -/
theorem C3_sanitizeInput_witness :
    JsValue.isString (.number 42) = false ∧ sanitizeInput (.number 42) = [] :=
  ⟨by decide, (C3_sanitizeInput_no_angle_bounded (.number 42)).2.2.2 (by decide)⟩

/-- C9, refuted as stated: on `"< a"` the result is `" a"`, which starts
with a space, and on `"a >"` the result is `"a "`, which ends with one. -/
theorem C9_sanitizeInput_not_trimmed :
    sanitizeInput (.str (js "< a")) = js " a" ∧
      ¬ NoLeadingSpace (sanitizeInput (.str (js "< a"))) ∧
      sanitizeInput (.str (js "a >")) = js "a " ∧
      ¬ NoTrailingSpace (sanitizeInput (.str (js "a >"))) := by
  refine ⟨by decide, ?_, by decide, ?_⟩
  · intro h
    have h2 := h 32 (by decide)
    revert h2
    decide
  · intro h
    have h2 := h 32 (by decide)
    revert h2
    decide

/-- C9, amended: for a string input, the result of `sanitizeInput` has no
leading whitespace when the trimmed input does not begin with `<` or `>`,
and no trailing whitespace when the trimmed input does not end with `<` or
`>` and keeps at most 1000 code units once `<` and `>` are removed. -/
theorem C9_sanitizeInput_trimmed_amended (s : JsString) :
    ((∀ c, (trim s).head? = some c → isAngle c = false) →
        NoLeadingSpace (sanitizeInput (.str s))) ∧
      ((∀ c, (trim s).getLast? = some c → isAngle c = false) →
        (removeAngles (trim s)).length ≤ 1000 →
        NoTrailingSpace (sanitizeInput (.str s))) := by
  constructor
  · intro hhead c hc
    cases ht : trim s with
    | nil => simp [sanitizeInput, removeAngles, ht] at hc
    | cons x xs =>
      have hx : isAngle x = false := hhead x (by rw [ht]; rfl)
      have hws : isWhiteSpace x = false := trim_noLeadingSpace s x (by rw [ht]; rfl)
      have hcx : c = x := by
        simp [sanitizeInput, removeAngles, ht, List.filter_cons, hx] at hc
        exact hc.symm
      rw [hcx]
      exact hws
  · intro hlast hlen c hc
    have hout : sanitizeInput (.str s) = removeAngles (trim s) := List.take_of_length_le hlen
    rw [hout] at hc
    obtain ⟨ys, hys⟩ := List.getLast?_eq_some_iff.mp hc
    have hmem : c ∈ removeAngles (trim s) := by
      rw [hys]
      simp
    have hkeep : isAngle c = false := not_isAngle_of_mem_removeAngles hmem
    rcases List.eq_nil_or_concat (trim s) with h0 | ⟨init, z, hz⟩
    · rw [h0] at hys
      simp [removeAngles] at hys
    · rw [List.concat_eq_append] at hz
      have hzang : isAngle z = false := hlast z (by rw [hz]; simp)
      have hzws : isWhiteSpace z = false := trim_noTrailingSpace s z (by rw [hz]; simp)
      have hcz : c = z := by
        rw [hz] at hys
        simp only [removeAngles, List.filter_append, List.filter_cons, hzang, Bool.not_false,
          if_true, List.filter_nil] at hys
        have := List.append_inj_right' hys (by simp)
        simpa using this.symm
      rw [hcz]
      exact hzws

/-- Witness of the amended C9 at the input `"  Test  "`. -/
theorem C9_sanitizeInput_trimmed_witness :
    sanitizeInput (.str (js "  Test  ")) = js "Test" ∧
      NoLeadingSpace (sanitizeInput (.str (js "  Test  "))) ∧
      NoTrailingSpace (sanitizeInput (.str (js "  Test  "))) :=
  ⟨by decide,
    (C9_sanitizeInput_trimmed_amended (js "  Test  ")).1 (by decide),
    (C9_sanitizeInput_trimmed_amended (js "  Test  ")).2 (by decide) (by decide)⟩

set_option maxRecDepth 100000 in
/-- C10, refuted as stated: the input made of 1001 characters `<` is longer
than 1000 after trimming, and `sanitizeInput` returns the empty string. -/
theorem C10_sanitizeInput_short_after_strip :
    1000 < (trim (List.replicate 1001 60)).length ∧
      (sanitizeInput (.str (List.replicate 1001 60))).length = 0 := by
  decide

/-- C10, amended: for every string input that is still longer than 1000
code units after surrounding whitespace is trimmed and every `<` and `>` is
removed, `sanitizeInput` returns a string of length exactly 1000. -/
theorem C10_sanitizeInput_length_amended (s : JsString)
    (h : 1000 < (removeAngles (trim s)).length) :
    (sanitizeInput (.str s)).length = 1000 := by
  simp only [sanitizeInput, List.length_take]
  omega

set_option maxRecDepth 100000 in
/-- Witness of the amended C10 at the input made of 1001 characters `a`. -/
theorem C10_sanitizeInput_length_witness :
    1000 < (removeAngles (trim (List.replicate 1001 97))).length ∧
      (sanitizeInput (.str (List.replicate 1001 97))).length = 1000 :=
  ⟨by decide, C10_sanitizeInput_length_amended (List.replicate 1001 97) (by decide)⟩

/-! ## Languages of the three patterns -/

namespace Re

theorem matches_chr_iff {c : Nat} {s : List Nat} : Matches (chr c) s ↔ s = [c] := by
  simp only [chr, matches_cls_iff, beq_iff_eq]
  constructor
  · rintro ⟨d, rfl, rfl⟩
    rfl
  · rintro rfl
    exact ⟨c, rfl, rfl⟩

theorem matches_range_iff {lo hi : Nat} {s : List Nat} :
    Matches (range lo hi) s ↔ ∃ c, s = [c] ∧ lo ≤ c ∧ c ≤ hi := by
  simp [range, matches_cls_iff]

theorem matches_opt_iff {r : Re} {s : List Nat} :
    Matches (opt r) s ↔ Matches r s ∨ s = [] := by
  simp [opt, matches_alt_iff, matches_eps_iff]

/-- The language of `[p]{0,n}`: at most `n` characters, all in the class. -/
theorem matches_upTo_cls_iff (p : Nat → Bool) (n : Nat) (s : List Nat) :
    Matches (upTo n (.cls p)) s ↔ s.length ≤ n ∧ ∀ c ∈ s, p c = true := by
  induction n generalizing s with
  | zero =>
    simp only [upTo, matches_eps_iff]
    constructor
    · rintro rfl
      simp
    · rintro ⟨hl, _⟩
      exact List.length_eq_zero.mp (Nat.le_zero.mp hl)
  | succ n ih =>
    simp only [upTo, matches_opt_iff, matches_seq_iff, matches_cls_iff, ih]
    constructor
    · rintro (⟨u, t, rfl, ⟨c, rfl, hc⟩, hlen, hall⟩ | rfl)
      · refine ⟨by simp; omega, ?_⟩
        intro d hd
        simp only [List.singleton_append, List.mem_cons] at hd
        rcases hd with rfl | hd
        · exact hc
        · exact hall d hd
      · simp
    · rintro ⟨hlen, hall⟩
      cases s with
      | nil => exact Or.inr rfl
      | cons c t =>
        refine Or.inl ⟨[c], t, rfl, ⟨c, rfl, hall c (by simp)⟩, ?_, ?_⟩
        · simp only [List.length_cons] at hlen
          omega
        · intro d hd
          exact hall d (by simp [hd])

/-- The language of `[lo-hi]{0,n}`. -/
theorem matches_upTo_range_iff (lo hi n : Nat) (s : List Nat) :
    Matches (upTo n (range lo hi)) s ↔ s.length ≤ n ∧ ∀ c ∈ s, lo ≤ c ∧ c ≤ hi := by
  rw [range, matches_upTo_cls_iff]
  simp

end Re

/-- The language of the phone pattern. -/
theorem matches_phoneRegex_iff (q : JsString) : Re.Matches phoneRegex q ↔ PhoneShape q := by
  simp only [phoneRegex, Re.matches_seq_iff, Re.matches_opt_iff, Re.matches_chr_iff,
    Re.matches_range_iff, Re.matches_upTo_range_iff, PhoneShape, isDigit]
  constructor
  · rintro ⟨sign, t, rfl, hsign, u, ds, rfl, ⟨d, rfl, hd⟩, hlen, hall⟩
    exact ⟨sign, d, ds, rfl, hsign.symm, hd, hlen, hall⟩
  · rintro ⟨sign, d, ds, rfl, hsign, hd, hlen, hall⟩
    exact ⟨sign, d :: ds, rfl, hsign.symm, [d], ds, rfl, ⟨d, rfl, hd⟩, hlen, hall⟩

/-- The language of the hour part `([0-1]?[0-9]|2[0-3])`. -/
theorem matches_hours_iff (h : JsString) :
    Re.Matches
        (.alt (.seq (.opt (.range 48 49)) (.range 48 57)) (.seq (.chr 50) (.range 48 51))) h ↔
      (∃ d, h = [d] ∧ isDigit d) ∨
        (∃ a d, h = [a, d] ∧ isDigit a ∧ isDigit d ∧ (a - 48) * 10 + (d - 48) ≤ 23) := by
  simp only [Re.matches_alt_iff, Re.matches_seq_iff, Re.matches_opt_iff, Re.matches_chr_iff,
    Re.matches_range_iff, isDigit]
  constructor
  · rintro (⟨u, t, rfl, (⟨a, rfl, ha⟩ | rfl), d, rfl, hd⟩ | ⟨u, t, rfl, rfl, d, rfl, hd⟩)
    · exact Or.inr ⟨a, d, rfl, by omega, hd, by omega⟩
    · exact Or.inl ⟨d, rfl, hd⟩
    · exact Or.inr ⟨50, d, rfl, by omega, by omega, by omega⟩
  · rintro (⟨d, rfl, hd⟩ | ⟨a, d, rfl, ha, hd, hv⟩)
    · exact Or.inl ⟨[], [d], rfl, Or.inr rfl, d, rfl, hd⟩
    · by_cases h49 : a ≤ 49
      · exact Or.inl ⟨[a], [d], rfl, Or.inl ⟨a, rfl, ha.1, h49⟩, d, rfl, hd⟩
      · have ha50 : a = 50 := by omega
        subst ha50
        exact Or.inr ⟨[50], [d], rfl, rfl, d, rfl, by omega⟩

/-- The language of the minute part `:[0-5][0-9]`. -/
theorem matches_minutes_iff (t : JsString) :
    Re.Matches (.seq (.chr 58) (.seq (.range 48 53) (.range 48 57))) t ↔
      ∃ m1 m2, t = [58, m1, m2] ∧ IsMinute m1 m2 := by
  simp only [Re.matches_seq_iff, Re.matches_chr_iff, Re.matches_range_iff, IsMinute, isDigit]
  constructor
  · rintro ⟨u, t, rfl, rfl, v, w, rfl, ⟨m1, rfl, h1⟩, m2, rfl, h2⟩
    exact ⟨m1, m2, rfl, by omega, h2, by omega⟩
  · rintro ⟨m1, m2, rfl, h1, h2, hv⟩
    exact ⟨[58], [m1, m2], rfl, rfl, [m1], [m2], rfl, ⟨m1, rfl, by omega⟩, m2, rfl, h2⟩

/-- The language of the time pattern: one or two hour digits denoting
0-23, a colon, two minute digits denoting 00-59. -/
theorem matches_timeRegex_iff (t : JsString) :
    Re.Matches timeRegex t ↔ IsHHMM t ∨ IsHMM t := by
  rw [timeRegex, Re.matches_seq_iff]
  simp only [matches_hours_iff, matches_minutes_iff, IsHHMM, IsHMM]
  constructor
  · rintro ⟨h, m, rfl, (⟨d, rfl, hd⟩ | ⟨a, d, rfl, ha, hd, hv⟩), m1, m2, rfl, hm⟩
    · exact Or.inr ⟨d, m1, m2, rfl, hd, hm⟩
    · exact Or.inl ⟨a, d, m1, m2, rfl, ha, hd, hv, hm⟩
  · rintro (⟨a, d, m1, m2, rfl, ha, hd, hv, hm⟩ | ⟨d, m1, m2, rfl, hd, hm⟩)
    · exact ⟨[a, d], [58, m1, m2], rfl, Or.inr ⟨a, d, rfl, ha, hd, hv⟩, m1, m2, rfl, hm⟩
    · exact ⟨[d], [58, m1, m2], rfl, Or.inl ⟨d, rfl, hd⟩, m1, m2, rfl, hm⟩

/-- C5: for every string `p`, `isValidPhone p` is true if and only if `p`
with all whitespace, hyphens and parentheses removed consists of an
optional leading `+`, one digit 1-9, then 0 to 15 further digits and nothing
else; `+1234567890` and `123-456-7890` are valid and `0123456789` is not. -/
theorem C5_isValidPhone_iff (p : JsString) :
    (isValidPhone p = true ↔ PhoneShape (removeSeparators p)) ∧
      isValidPhone (js "+1234567890") = true ∧
      isValidPhone (js "123-456-7890") = true ∧
      isValidPhone (js "0123456789") = false := by
  refine ⟨?_, by decide, by decide, by decide⟩
  rw [isValidPhone, Re.test_iff, matches_phoneRegex_iff]

/-- C6, refuted as stated: `isValidEmail` rejects `a.b@c`, which the
specification lists as accepted. -/
theorem C6_isValidEmail_rejects_dot_before_at : isValidEmail (js "a.b@c") = false := by
  decide

/-- C6, amended: `isValidEmail` accepts `a@b.c` and rejects `a@b`, `a.b@c`
and `@b.c`. -/
theorem C6_isValidEmail_verdicts :
    isValidEmail (js "a@b.c") = true ∧ isValidEmail (js "a@b") = false ∧
      isValidEmail (js "a.b@c") = false ∧ isValidEmail (js "@b.c") = false := by
  decide

/-! ## Booking handler -/

/-- With the mail service configured, the handler is the chain of the five
validation tests followed by the two sends. -/
theorem bookAppointment_of_configured (env : Env) (body : Body)
    (hcfg : env.configured = true) :
    bookAppointment env body =
      if missingRequired (sanitize env body) then
        ⟨400, false, "Please fill in all required fields"⟩
      else if !isValidEmail (sanitize env body).email then
        ⟨400, false, "Please enter a valid email address"⟩
      else if !isValidPhone (sanitize env body).phone then
        ⟨400, false, "Please enter a valid phone number"⟩
      else if dateLt (env.parseDate (sanitize env body).date) env.today then
        ⟨400, false, "Please select a future date for your appointment"⟩
      else if !timeRegex.test (sanitize env body).time then
        ⟨400, false, "Please enter a valid time"⟩
      else if !env.sendAdmin (sanitize env body) then
        ⟨500, false,
          "An error occurred while processing your request. Please try again later."⟩
      else if !env.sendClient (sanitize env body) then
        ⟨500, false,
          "An error occurred while processing your request. Please try again later."⟩
      else
        ⟨200, true,
          "Appointment request submitted successfully. We will contact you shortly to confirm."⟩ := by
  have h : env.transporter = true ∧ truthy env.emailUser = true ∧
      truthy env.emailPass = true := by
    simpa [Env.configured, and_assoc] using hcfg
  simp [bookAppointment, h.1, h.2.1, h.2.2]

/-- C2: with the mail service configured, the handler answers 400 if and
only if at least one validation rule fails on the sanitized fields, and the
answer carries the message of the first failing rule in the fixed order
(required fields, email, phone, date, time); a body without `lastName`
gets the required-fields message whatever its other fields are. -/
theorem C2_validation_first_failure (env : Env) (body : Body)
    (hcfg : env.configured = true) :
    ((bookAppointment env body).status = 400 ↔
        ∃ rule ∈ validationRules env, rule.1 (sanitize env body) = false) ∧
      ((bookAppointment env body).status = 400 ↔
        (firstFailure env (sanitize env body)).isSome = true) ∧
      (∀ msg, firstFailure env (sanitize env body) = some msg →
        bookAppointment env body = ⟨400, false, msg⟩) ∧
      (sanitizeInput body.lastName = [] →
        bookAppointment env body = ⟨400, false, "Please fill in all required fields"⟩) := by
  rw [bookAppointment_of_configured env body hcfg]
  refine ⟨?_, ?_, ?_, ?_⟩
  · cases h1 : missingRequired (sanitize env body) <;>
      cases h2 : isValidEmail (sanitize env body).email <;>
      cases h3 : isValidPhone (sanitize env body).phone <;>
      cases h4 : dateLt (env.parseDate (sanitize env body).date) env.today <;>
      cases h5 : timeRegex.test (sanitize env body).time <;>
      cases h6 : env.sendAdmin (sanitize env body) <;>
      cases h7 : env.sendClient (sanitize env body) <;>
      simp [validationRules, h1, h2, h3, h4, h5]
  · cases h1 : missingRequired (sanitize env body) <;>
      cases h2 : isValidEmail (sanitize env body).email <;>
      cases h3 : isValidPhone (sanitize env body).phone <;>
      cases h4 : dateLt (env.parseDate (sanitize env body).date) env.today <;>
      cases h5 : timeRegex.test (sanitize env body).time <;>
      cases h6 : env.sendAdmin (sanitize env body) <;>
      cases h7 : env.sendClient (sanitize env body) <;>
      simp [firstFailure, validationRules, List.find?, h1, h2, h3, h4, h5]
  · intro msg
    cases h1 : missingRequired (sanitize env body) <;>
      cases h2 : isValidEmail (sanitize env body).email <;>
      cases h3 : isValidPhone (sanitize env body).phone <;>
      cases h4 : dateLt (env.parseDate (sanitize env body).date) env.today <;>
      cases h5 : timeRegex.test (sanitize env body).time <;>
      simp [firstFailure, validationRules, List.find?, h1, h2, h3, h4, h5]
  · intro hlast
    have hmiss : missingRequired (sanitize env body) = true := by
      simp [missingRequired, sanitize, hlast]
    simp [hmiss]

/-- Witness of C2 at the invalid booking of the test script: no `lastName`,
a malformed email and a malformed phone; the answer is the required-fields
message. -/
theorem C2_validation_witness :
    sampleEnv.configured = true ∧
      isValidEmail (sanitize sampleEnv invalidBooking).email = false ∧
      isValidPhone (sanitize sampleEnv invalidBooking).phone = false ∧
      bookAppointment sampleEnv invalidBooking =
        ⟨400, false, "Please fill in all required fields"⟩ :=
  ⟨by decide, by decide, by decide,
    (C2_validation_first_failure sampleEnv invalidBooking (by decide)).2.2.2 (by decide)⟩

/-- The date test of the handler: a booking that passes the required-field,
email and phone tests is answered with the date message exactly when its
date field parses to a time value before local midnight today. -/
theorem bookAppointment_date_check (env : Env) (body : Body)
    (hcfg : env.configured = true)
    (hreq : missingRequired (sanitize env body) = false)
    (hemail : isValidEmail (sanitize env body).email = true)
    (hphone : isValidPhone (sanitize env body).phone = true) :
    bookAppointment env body =
        ⟨400, false, "Please select a future date for your appointment"⟩ ↔
      ∃ t, env.parseDate (sanitize env body).date = some t ∧ t < env.today := by
  rw [bookAppointment_of_configured env body hcfg]
  cases hp : env.parseDate (sanitize env body).date with
  | none =>
    cases h5 : timeRegex.test (sanitize env body).time <;>
      cases h6 : env.sendAdmin (sanitize env body) <;>
      cases h7 : env.sendClient (sanitize env body) <;>
      simp [hreq, hemail, hphone, dateLt]
  | some t =>
    by_cases hlt : t < env.today
    · simp [hreq, hemail, hphone, dateLt, hlt]
    · cases h5 : timeRegex.test (sanitize env body).time <;>
        cases h6 : env.sendAdmin (sanitize env body) <;>
        cases h7 : env.sendClient (sanitize env body) <;>
        simp [hreq, hemail, hphone, dateLt, hlt]

/-- C4, the behaviour of the code: a booking that passes the required-field,
email and phone tests is answered with the date message if and only if its
date field parses and lies before local midnight today. A date field that
does not parse is therefore not rejected by the date test, although it is
not a date on or after the current date. -/
theorem C4_unparsed_date_passes (env : Env) (body : Body)
    (hcfg : env.configured = true)
    (hreq : missingRequired (sanitize env body) = false)
    (hemail : isValidEmail (sanitize env body).email = true)
    (hphone : isValidPhone (sanitize env body).phone = true) :
    (∀ t, env.parseDate (sanitize env body).date = some t →
        (bookAppointment env body ≠
            ⟨400, false, "Please select a future date for your appointment"⟩ ↔
          env.today ≤ t)) ∧
      (env.parseDate (sanitize env body).date = none →
        ¬ dateOnOrAfterToday env (sanitize env body).date ∧
          bookAppointment env body ≠
            ⟨400, false, "Please select a future date for your appointment"⟩) := by
  have key := bookAppointment_date_check env body hcfg hreq hemail hphone
  constructor
  · intro t ht
    rw [Ne, key]
    simp [ht]
  · intro hnone
    constructor
    · rintro ⟨t, ht, _⟩
      rw [hnone] at ht
      cases ht
    · rw [Ne, key]
      simp [hnone]

/-- Witness of C4 at the test booking with the date field `not-a-date`:
the field does not parse, and the booking is accepted with status 200. -/
theorem C4_unparsed_date_witness :
    sampleEnv.parseDate (sanitize sampleEnv (sampleBooking "not-a-date" "10:00")).date = none ∧
      (¬ dateOnOrAfterToday sampleEnv
          (sanitize sampleEnv (sampleBooking "not-a-date" "10:00")).date ∧
        bookAppointment sampleEnv (sampleBooking "not-a-date" "10:00") ≠
          ⟨400, false, "Please select a future date for your appointment"⟩) ∧
      (bookAppointment sampleEnv (sampleBooking "not-a-date" "10:00")).status = 200 :=
  ⟨by decide,
    (C4_unparsed_date_passes sampleEnv (sampleBooking "not-a-date" "10:00") (by decide)
      (by decide) (by decide) (by decide)).2 (by decide),
    by decide⟩

/-- C7, refuted as stated: the time test accepts `9:30`, which has a single
hour digit. -/
theorem C7_single_hour_digit_accepted :
    timeRegex.test (js "9:30") = true ∧ ¬ IsHHMM (js "9:30") := by
  refine ⟨by decide, ?_⟩
  rintro ⟨h1, h2, m1, m2, heq, _⟩
  have hlen : (js "9:30").length = 5 := by
    rw [heq]
    rfl
  revert hlen
  decide

/-- C7, amended: the time test accepts a sanitized time string if and only
if it is a 24-hour time with one or two hour digits (a single digit 0-9, or
two digits denoting 00-23), a colon, and exactly two minute digits denoting
00-59; a booking that passes the earlier tests is answered with 400 and
the time message exactly when its time field is not of that form. -/
theorem C7_time_check_amended (t : JsString) :
    (timeRegex.test t = true ↔ IsHHMM t ∨ IsHMM t) ∧
      (∀ (env : Env) (body : Body), env.configured = true →
        missingRequired (sanitize env body) = false →
        isValidEmail (sanitize env body).email = true →
        isValidPhone (sanitize env body).phone = true →
        dateLt (env.parseDate (sanitize env body).date) env.today = false →
        (sanitize env body).time = t →
        (bookAppointment env body = ⟨400, false, "Please enter a valid time"⟩ ↔
          ¬ (IsHHMM t ∨ IsHMM t))) := by
  have key : timeRegex.test t = true ↔ IsHHMM t ∨ IsHMM t := by
    rw [Re.test_iff, matches_timeRegex_iff]
  refine ⟨key, ?_⟩
  intro env body hcfg hreq hemail hphone hdate htime
  rw [← key, ← htime, bookAppointment_of_configured env body hcfg]
  cases h5 : timeRegex.test (sanitize env body).time <;>
    cases h6 : env.sendAdmin (sanitize env body) <;>
    cases h7 : env.sendClient (sanitize env body) <;>
    simp [hreq, hemail, hphone, hdate]

/-- Witness of the amended C7 at the test booking with the time field
`25:00`, which is answered with the time message. -/
theorem C7_time_check_witness :
    bookAppointment sampleEnv (sampleBooking "2025-01-20" "25:00") =
        ⟨400, false, "Please enter a valid time"⟩ ∧
      ¬ (IsHHMM (js "25:00") ∨ IsHMM (js "25:00")) :=
  have h := (C7_time_check_amended (js "25:00")).2 sampleEnv
    (sampleBooking "2025-01-20" "25:00") (by decide) (by decide) (by decide) (by decide)
    (by decide) (by decide)
  ⟨by decide, h.mp (by decide)⟩

/-! ## Rate limiter -/

theorem rateLimit_eq_stepEntry (counts : RequestCounts) (req : Request) (now : Nat) :
    rateLimit counts req now =
      (mapSet counts (clientIp req) (stepEntry (counts (clientIp req)) now).1,
        (stepEntry (counts (clientIp req)) now).2) := by
  simp only [rateLimit, stepEntry]
  cases counts (clientIp req) with
  | none => rfl
  | some userData =>
    dsimp only
    split_ifs <;> rfl

theorem mapSet_self (m : RequestCounts) (k : Option JsString) (v : Entry) :
    mapSet m k v k = some v := by
  simp [mapSet]

/-- The outcomes of the requests of one client depend on the map only
through the entry of that client. -/
theorem rateLimitAll_eq_runEntry (ip : Option JsString) (reqs : List (Request × Nat))
    (hip : ∀ r ∈ reqs, clientIp r.1 = ip) (counts : RequestCounts) :
    rateLimitAll counts reqs = runEntry (counts ip) (reqs.map Prod.snd) := by
  induction reqs generalizing counts with
  | nil => rfl
  | cons r rest ih =>
    obtain ⟨req, now⟩ := r
    have hreq : clientIp req = ip := hip (req, now) (by simp)
    have hrest : ∀ r ∈ rest, clientIp r.1 = ip := fun r hr => hip r (by simp [hr])
    simp only [rateLimitAll, List.map_cons, runEntry]
    rw [rateLimit_eq_stepEntry, hreq]
    dsimp only
    rw [ih hrest, mapSet_self]

theorem countsAfter_eq_entryAfter (ip : Option JsString) (reqs : List (Request × Nat))
    (hip : ∀ r ∈ reqs, clientIp r.1 = ip) (counts : RequestCounts) :
    countsAfter counts reqs ip = entryAfter (counts ip) (reqs.map Prod.snd) := by
  induction reqs generalizing counts with
  | nil => rfl
  | cons r rest ih =>
    obtain ⟨req, now⟩ := r
    have hreq : clientIp req = ip := hip (req, now) (by simp)
    have hrest : ∀ r ∈ rest, clientIp r.1 = ip := fun r hr => hip r (by simp [hr])
    simp only [countsAfter, List.map_cons, entryAfter]
    rw [rateLimit_eq_stepEntry, hreq]
    dsimp only
    rw [ih hrest, mapSet_self]

theorem stepEntry_some_fst (c r now : Nat) :
    (stepEntry (some ⟨c, r⟩) now).1 =
      if now > r then ⟨1, now + RATE_LIMIT_WINDOW⟩ else ⟨c + 1, r⟩ := by
  simp only [stepEntry]
  split_ifs <;> rfl

theorem stepEntry_some_snd (c r now : Nat) :
    (stepEntry (some ⟨c, r⟩) now).2 =
      if now > r then Outcome.next
      else if 5 ≤ c then tooManyRequests else Outcome.next := by
  by_cases hgt : now > r
  · simp [stepEntry, MAX_REQUESTS, hgt]
  · by_cases h5 : 5 ≤ c
    · have h6 : 5 < c + 1 := by omega
      simp [stepEntry, MAX_REQUESTS, hgt, h5, h6]
    · have h6 : ¬ 5 < c + 1 := by omega
      simp [stepEntry, MAX_REQUESTS, hgt, h5, h6]

theorem runEntry_length (e : Option Entry) (ts : List Nat) :
    (runEntry e ts).length = ts.length := by
  induction ts generalizing e with
  | nil => rfl
  | cons t rest ih => simp [runEntry, ih]

theorem entryAfter_append (e : Option Entry) (a b : List Nat) :
    entryAfter e (a ++ b) = entryAfter (entryAfter e a) b := by
  induction a generalizing e with
  | nil => rfl
  | cons t rest ih => simp [entryAfter, ih]

theorem windowOpener_succ (ts : List Nat) (i : Nat) :
    windowOpener ts (i + 1) =
      if ts.getD (i + 1) 0 > ts.getD (windowOpener ts i) 0 + RATE_LIMIT_WINDOW then i + 1
      else windowOpener ts i := rfl

theorem windowOpener_le (ts : List Nat) (i : Nat) : windowOpener ts i ≤ i := by
  induction i with
  | zero => simp [windowOpener]
  | succ i ih =>
    rw [windowOpener_succ]
    split
    · exact Nat.le_refl _
    · exact Nat.le_succ_of_le ih

theorem take_succ_eq_append_getD (ts : List Nat) (i : Nat) (hi : i < ts.length) :
    ts.take (i + 1) = ts.take i ++ [ts.getD i 0] := by
  rw [List.take_succ, List.getD_eq_getElem?_getD, List.getElem?_eq_getElem hi]
  rfl

/-- The entry after the first `i + 1` requests of a fresh client records the
position of request `i` in its window and the reset time of that window. -/
theorem entryAfter_take_succ (ts : List Nat) (i : Nat) (hi : i < ts.length) :
    entryAfter none (ts.take (i + 1)) =
      some ⟨positionInWindow ts i, ts.getD (windowOpener ts i) 0 + RATE_LIMIT_WINDOW⟩ := by
  induction i with
  | zero =>
    rw [take_succ_eq_append_getD ts 0 hi]
    rfl
  | succ i ih =>
    have hi2 : i < ts.length := by omega
    have hle := windowOpener_le ts i
    rw [take_succ_eq_append_getD ts (i + 1) hi, entryAfter_append, ih hi2]
    simp only [entryAfter]
    rw [stepEntry_some_fst, positionInWindow, positionInWindow, windowOpener_succ]
    by_cases hgt : ts.getD (i + 1) 0 > ts.getD (windowOpener ts i) 0 + RATE_LIMIT_WINDOW
    · rw [if_pos hgt, if_pos hgt]
      have hpos : i + 1 + 1 - (i + 1) = 1 := by omega
      rw [hpos]
    · rw [if_neg hgt, if_neg hgt]
      have hpos : i + 1 + 1 - windowOpener ts i = i + 1 - windowOpener ts i + 1 := by omega
      rw [hpos]

/-- The outcome of request `i` is decided by the entry left by the requests
before it. -/
theorem runEntry_getElem? (e : Option Entry) (ts : List Nat) (i : Nat) (hi : i < ts.length) :
    (runEntry e ts)[i]? = some (stepEntry (entryAfter e (ts.take i)) (ts.getD i 0)).2 := by
  induction ts generalizing e i with
  | nil => simp at hi
  | cons t rest ih =>
    cases i with
    | zero => simp [runEntry, entryAfter]
    | succ i =>
      have hi2 : i < rest.length := by simpa using hi
      simp only [runEntry, List.getElem?_cons_succ, List.take_succ_cons, entryAfter]
      rw [ih _ i hi2]
      simp

/-- For a fresh client, request `i` is rejected exactly when it is the 6th
or a later request of its window. -/
theorem runEntry_none_getElem? (ts : List Nat) (i : Nat) (hi : i < ts.length) :
    (runEntry none ts)[i]? =
      some (if 6 ≤ positionInWindow ts i then tooManyRequests else .next) := by
  rw [runEntry_getElem? none ts i hi]
  cases i with
  | zero => rfl
  | succ i =>
    have hi2 : i < ts.length := by omega
    have hle := windowOpener_le ts i
    rw [entryAfter_take_succ ts i hi2, stepEntry_some_snd, positionInWindow, positionInWindow,
      windowOpener_succ]
    by_cases hgt : ts.getD (i + 1) 0 > ts.getD (windowOpener ts i) 0 + RATE_LIMIT_WINDOW
    · rw [if_pos hgt, if_pos hgt]
      have hpos : ¬ 6 ≤ i + 1 + 1 - (i + 1) := by omega
      rw [if_neg hpos]
    · rw [if_neg hgt, if_neg hgt]
      by_cases h5 : 5 ≤ i + 1 - windowOpener ts i
      · have h6 : 6 ≤ i + 1 + 1 - windowOpener ts i := by omega
        rw [if_pos h5, if_pos h6]
      · have h6 : ¬ 6 ≤ i + 1 + 1 - windowOpener ts i := by omega
        rw [if_neg h5, if_neg h6]

theorem sorted_getD_le (ts : List Nat) (h : ts.Pairwise (· ≤ ·)) (i j : Nat) (hij : i ≤ j)
    (hj : j < ts.length) : ts.getD i 0 ≤ ts.getD j 0 := by
  have hi : i < ts.length := by omega
  rw [List.getD_eq_getElem ts 0 hi, List.getD_eq_getElem ts 0 hj]
  rcases Nat.eq_or_lt_of_le hij with rfl | hlt
  · exact Nat.le_refl _
  · exact List.pairwise_iff_getElem.mp h i j hi hj hlt

/-- While every request arrives within the window opened by the first one,
that window stays the current one. -/
theorem windowOpener_eq_zero (ts : List Nat) (i : Nat)
    (h : ∀ k, k ≤ i → ts.getD k 0 ≤ ts.getD 0 0 + RATE_LIMIT_WINDOW) :
    windowOpener ts i = 0 := by
  induction i with
  | zero => rfl
  | succ i ih =>
    have h0 : windowOpener ts i = 0 := ih (fun k hk => h k (by omega))
    have h1 := h (i + 1) (Nat.le_refl _)
    rw [windowOpener_succ, h0, if_neg (by omega)]

/-- C1: for every sequence of requests passed to `rateLimit` from one client
address that is absent from `requestCounts` at the start, with
non-decreasing arrival times: after each request the entry of the client
holds the position of the request in its window and the opening time of
that window plus 15 minutes, a window being opened by the first request and
by each request arriving strictly later than the current reset time; a
request is rejected with 429 if and only if it is the 6th or a later
request of its window, and passed on otherwise. Of 7 requests within 15
minutes exactly the 6th and 7th are rejected, and a request arriving after
the current window has elapsed is admitted. -/
theorem C1_rateLimit_fixed_window (counts : RequestCounts) (ip : Option JsString)
    (reqs : List (Request × Nat)) (hfresh : counts ip = none)
    (hip : ∀ r ∈ reqs, clientIp r.1 = ip)
    (hsorted : (reqs.map Prod.snd).Pairwise (· ≤ ·)) :
    (∀ i, i < reqs.length →
        countsAfter counts (reqs.take (i + 1)) ip =
            some ⟨positionInWindow (reqs.map Prod.snd) i,
              (reqs.map Prod.snd).getD (windowOpener (reqs.map Prod.snd) i) 0 +
                RATE_LIMIT_WINDOW⟩ ∧
          (rateLimitAll counts reqs)[i]? =
            some (if 6 ≤ positionInWindow (reqs.map Prod.snd) i then tooManyRequests
              else Outcome.next)) ∧
      (reqs.length = 7 →
        (reqs.map Prod.snd).getD 6 0 ≤ (reqs.map Prod.snd).getD 0 0 + RATE_LIMIT_WINDOW →
        rateLimitAll counts reqs =
          [.next, .next, .next, .next, .next, tooManyRequests, tooManyRequests]) ∧
      (∀ i, i + 1 < reqs.length →
        (reqs.map Prod.snd).getD (i + 1) 0 >
          (reqs.map Prod.snd).getD (windowOpener (reqs.map Prod.snd) i) 0 + RATE_LIMIT_WINDOW →
        (rateLimitAll counts reqs)[i + 1]? = some Outcome.next) := by
  have hlen : (reqs.map Prod.snd).length = reqs.length := List.length_map _ _
  have hout : ∀ i, i < reqs.length →
      (rateLimitAll counts reqs)[i]? =
        some (if 6 ≤ positionInWindow (reqs.map Prod.snd) i then tooManyRequests
          else Outcome.next) := by
    intro i hi
    rw [rateLimitAll_eq_runEntry ip reqs hip counts, hfresh]
    exact runEntry_none_getElem? _ i (by omega)
  refine ⟨?_, ?_, ?_⟩
  · intro i hi
    refine ⟨?_, hout i hi⟩
    have hip2 : ∀ r ∈ reqs.take (i + 1), clientIp r.1 = ip :=
      fun r hr => hip r (List.mem_of_mem_take hr)
    rw [countsAfter_eq_entryAfter ip _ hip2 counts, hfresh, List.map_take]
    exact entryAfter_take_succ _ i (by omega)
  · intro h7 hwin
    have hpos : ∀ i, i < 7 → positionInWindow (reqs.map Prod.snd) i = i + 1 := by
      intro i hi
      have h0 : windowOpener (reqs.map Prod.snd) i = 0 := by
        apply windowOpener_eq_zero
        intro k hk
        have := sorted_getD_le _ hsorted k 6 (by omega) (by omega)
        omega
      rw [positionInWindow, h0]
      rfl
    apply List.ext_getElem?
    intro n
    by_cases hn : n < 7
    · rw [hout n (by omega), hpos n hn]
      interval_cases n <;> rfl
    · have hl : (rateLimitAll counts reqs).length = 7 := by
        rw [rateLimitAll_eq_runEntry ip reqs hip counts, runEntry_length, hlen, h7]
      rw [List.getElem?_eq_none (by omega), List.getElem?_eq_none (by simp; omega)]
  · intro i hi hgt
    rw [hout (i + 1) hi, positionInWindow, windowOpener_succ, if_pos hgt]
    have hpos : ¬ 6 ≤ i + 1 + 1 - (i + 1) := by omega
    rw [if_neg hpos]

/-- Witness of C1: of seven requests of a fresh client, the last of them
arriving exactly at the reset time, the 6th and 7th are rejected; when the
last arrives one millisecond later it opens a new window and is admitted. -/
theorem C1_rateLimit_witness :
    rateLimitAll emptyCounts
        [(requestFrom "10.0.0.1", 1000), (requestFrom "10.0.0.1", 1001),
          (requestFrom "10.0.0.1", 1002), (requestFrom "10.0.0.1", 1003),
          (requestFrom "10.0.0.1", 1004), (requestFrom "10.0.0.1", 1005),
          (requestFrom "10.0.0.1", 901000)] =
      [.next, .next, .next, .next, .next, tooManyRequests, tooManyRequests] ∧
    (rateLimitAll emptyCounts
        [(requestFrom "10.0.0.1", 1000), (requestFrom "10.0.0.1", 1001),
          (requestFrom "10.0.0.1", 1002), (requestFrom "10.0.0.1", 1003),
          (requestFrom "10.0.0.1", 1004), (requestFrom "10.0.0.1", 1005),
          (requestFrom "10.0.0.1", 901001)])[6]? = some Outcome.next :=
  ⟨(C1_rateLimit_fixed_window emptyCounts (some (js "10.0.0.1")) _ rfl (by decide)
      (by decide)).2.1 rfl (by decide),
    (C1_rateLimit_fixed_window emptyCounts (some (js "10.0.0.1")) _ rfl (by decide)
      (by decide)).2.2 5 (by decide) (by decide)⟩

/-! ### Bursts at a window boundary -/

theorem admittedWithin_nil (a len : Nat) (out : List Outcome) :
    admittedWithin a len [] out = 0 := rfl

theorem admittedWithin_cons (a len t : Nat) (ts : List Nat) (o : Outcome)
    (out : List Outcome) :
    admittedWithin a len (t :: ts) (o :: out) =
      (if a ≤ t ∧ t ≤ a + len ∧ o = Outcome.next then 1 else 0) +
        admittedWithin a len ts out := by
  simp only [admittedWithin, List.zip_cons_cons, List.filter_cons]
  by_cases h : a ≤ t ∧ t ≤ a + len ∧ o = Outcome.next
  · obtain ⟨h1, h2, h3⟩ := h
    simp [h1, h2, h3]
    omega
  · rw [if_neg h]
    have hb : (decide (a ≤ t) && decide (t ≤ a + len) && decide (o = Outcome.next)) = false := by
      simpa [and_assoc] using h
    simp [hb]

theorem admittedWithin_cons_le (a len t : Nat) (ts : List Nat) (o : Outcome)
    (out : List Outcome) :
    admittedWithin a len (t :: ts) (o :: out) ≤ 1 + admittedWithin a len ts out := by
  rw [admittedWithin_cons]
  split_ifs <;> omega

/-- Requests arriving after the interval are not counted. -/
theorem admittedWithin_of_late (a len : Nat) (ts : List Nat) (out : List Outcome)
    (h : ∀ t ∈ ts, a + len < t) : admittedWithin a len ts out = 0 := by
  induction ts generalizing out with
  | nil => rfl
  | cons t rest ih =>
    cases out with
    | nil => simp [admittedWithin]
    | cons o out =>
      have ht : ¬ t ≤ a + len := Nat.not_le.mpr (h t (by simp))
      rw [admittedWithin_cons, ih out (fun u hu => h u (by simp [hu]))]
      simp [ht]

/-- Inside one window that covers the interval, at most `5 - c` further
requests are admitted once `c` have been counted. -/
theorem admittedWithin_same_window (a : Nat) (ts : List Nat) (c r : Nat)
    (hsorted : ts.Pairwise (· ≤ ·)) (hr : a + RATE_LIMIT_WINDOW ≤ r) :
    admittedWithin a RATE_LIMIT_WINDOW ts (runEntry (some ⟨c, r⟩) ts) ≤ 5 - c := by
  induction ts generalizing c with
  | nil => simp [admittedWithin_nil]
  | cons t rest ih =>
    have hrest : rest.Pairwise (· ≤ ·) := (List.pairwise_cons.mp hsorted).2
    by_cases hlate : a + RATE_LIMIT_WINDOW < t
    · rw [admittedWithin_of_late]
      · exact Nat.zero_le _
      · intro u hu
        rcases List.mem_cons.mp hu with rfl | hu
        · exact hlate
        · have := (List.pairwise_cons.mp hsorted).1 u hu
          omega
    · have hnot : ¬ t > r := by omega
      simp only [runEntry]
      rw [admittedWithin_cons, stepEntry_some_fst, stepEntry_some_snd, if_neg hnot, if_neg hnot]
      have hih := ih (c + 1) hrest
      by_cases h5 : 5 ≤ c
      · rw [if_pos h5]
        have : ¬ (a ≤ t ∧ t ≤ a + RATE_LIMIT_WINDOW ∧ tooManyRequests = Outcome.next) := by
          rintro ⟨_, _, h⟩
          cases h
        rw [if_neg this]
        omega
      · rw [if_neg h5]
        split_ifs <;> omega

/-- From an entry that has counted `c ≥ 1` requests, an interval of window
length starting at `a` receives at most `5 - c` admissions from the current
window and 5 from the next one. -/
theorem admittedWithin_two_windows (a : Nat) (ts : List Nat) (c r : Nat)
    (hsorted : ts.Pairwise (· ≤ ·)) (hge : ∀ t ∈ ts, a ≤ t) :
    admittedWithin a RATE_LIMIT_WINDOW ts (runEntry (some ⟨c, r⟩) ts) ≤ 5 - c + 5 := by
  induction ts generalizing c with
  | nil => simp [admittedWithin_nil]
  | cons t rest ih =>
    have hrest : rest.Pairwise (· ≤ ·) := (List.pairwise_cons.mp hsorted).2
    have hat : a ≤ t := hge t (by simp)
    simp only [runEntry]
    by_cases hgt : t > r
    · rw [stepEntry_some_fst, stepEntry_some_snd, if_pos hgt, if_pos hgt]
      have h1 := admittedWithin_cons_le a RATE_LIMIT_WINDOW t rest Outcome.next
        (runEntry (some ⟨1, t + RATE_LIMIT_WINDOW⟩) rest)
      have h2 := admittedWithin_same_window a rest 1 (t + RATE_LIMIT_WINDOW) hrest (by omega)
      omega
    · rw [admittedWithin_cons, stepEntry_some_fst, stepEntry_some_snd, if_neg hgt, if_neg hgt]
      have hih := ih (c + 1) hrest (fun u hu => hge u (by simp [hu]))
      by_cases h5 : 5 ≤ c
      · rw [if_pos h5]
        have : ¬ (a ≤ t ∧ t ≤ a + RATE_LIMIT_WINDOW ∧ tooManyRequests = Outcome.next) := by
          rintro ⟨_, _, h⟩
          cases h
        rw [if_neg this]
        omega
      · rw [if_neg h5]
        split_ifs <;> omega

theorem stepEntry_count_pos (e : Option Entry) (now : Nat) : 1 ≤ (stepEntry e now).1.count := by
  cases e with
  | none => simp [stepEntry]
  | some en =>
    obtain ⟨c, r⟩ := en
    rw [stepEntry_some_fst]
    split_ifs <;> simp

/-- From start-up, or from any entry that has counted at least one request,
at most 9 requests arriving within one interval of window length are
admitted. -/
theorem admittedWithin_le_nine (a : Nat) (ts : List Nat) (e : Option Entry)
    (he : ∀ en, e = some en → 1 ≤ en.count) (hsorted : ts.Pairwise (· ≤ ·)) :
    admittedWithin a RATE_LIMIT_WINDOW ts (runEntry e ts) ≤ 9 := by
  induction ts generalizing e with
  | nil => simp [admittedWithin_nil]
  | cons t rest ih =>
    have hrest : rest.Pairwise (· ≤ ·) := (List.pairwise_cons.mp hsorted).2
    by_cases hat : a ≤ t
    · have hge : ∀ u ∈ t :: rest, a ≤ u := by
        intro u hu
        rcases List.mem_cons.mp hu with rfl | hu
        · exact hat
        · have := (List.pairwise_cons.mp hsorted).1 u hu
          omega
      cases e with
      | none =>
        have h1 := admittedWithin_cons_le a RATE_LIMIT_WINDOW t rest (stepEntry none t).2
          (runEntry (some (stepEntry none t).1) rest)
        have h2 := admittedWithin_same_window a rest 1 (t + RATE_LIMIT_WINDOW) hrest (by omega)
        simp only [runEntry]
        have hst : (stepEntry none t).1 = ⟨1, t + RATE_LIMIT_WINDOW⟩ := rfl
        rw [hst] at h1 ⊢
        omega
      | some en =>
        obtain ⟨c, r⟩ := en
        have hc : 1 ≤ c := he ⟨c, r⟩ rfl
        have := admittedWithin_two_windows a (t :: rest) c r hsorted hge
        omega
    · simp only [runEntry]
      rw [admittedWithin_cons, if_neg (fun h => hat h.1), Nat.zero_add]
      apply ih _ _ hrest
      intro en hen
      cases hen
      exact stepEntry_count_pos e t

/-- One call of `rateLimit` keeps every stored count at 1 or more. -/
theorem rateLimit_count_pos (counts : RequestCounts) (req : Request) (now : Nat)
    (h : ∀ k en, counts k = some en → 1 ≤ en.count) :
    ∀ k en, (rateLimit counts req now).1 k = some en → 1 ≤ en.count := by
  intro k en hk
  rw [rateLimit_eq_stepEntry] at hk
  simp only [mapSet] at hk
  split_ifs at hk
  · cases hk
    exact stepEntry_count_pos _ now
  · exact h k en hk

/-- Every count stored in a map reached from start-up is 1 or more. -/
theorem countsAfter_count_pos (history : List (Request × Nat)) (counts : RequestCounts)
    (h : ∀ k en, counts k = some en → 1 ≤ en.count) :
    ∀ k en, countsAfter counts history k = some en → 1 ≤ en.count := by
  induction history generalizing counts with
  | nil => exact h
  | cons r rest ih =>
    obtain ⟨req, now⟩ := r
    exact ih _ (rateLimit_count_pos counts req now h)

/-- In no state reached from start-up does a sequence of requests of one
client, with non-decreasing arrival times, have more than 9 admitted
requests inside one interval of window length. -/
theorem burst_le_nine (n : Nat) (h : BurstAttainable n RATE_LIMIT_WINDOW) : n ≤ 9 := by
  obtain ⟨history, ip, reqs, a, hip, hsorted, hn⟩ := h
  rw [rateLimitAll_eq_runEntry ip reqs hip (countsAfter emptyCounts history)] at hn
  have hb := admittedWithin_le_nine a (reqs.map Prod.snd) (countsAfter emptyCounts history ip)
    (countsAfter_count_pos history emptyCounts (fun k en hen => by cases hen) ip) hsorted
  omega

/-- C8, refuted as stated: in no state reached from start-up do 10 admitted
requests of one client, arriving in non-decreasing order, lie within one
interval no longer than the 15-minute window. -/
theorem C8_no_double_burst : ¬ BurstAttainable 10 RATE_LIMIT_WINDOW := by
  intro h
  have := burst_le_nine 10 h
  omega

/-- C8, amended: 9 requests (twice the limit, less one) whose arrival times
all lie within one interval no longer than the 15-minute window can all be
admitted, and 9 is the most; 10 admitted requests fit in an interval one
millisecond longer than the window. -/
theorem C8_burst_amended :
    BurstAttainable 9 RATE_LIMIT_WINDOW ∧
      (∀ n, BurstAttainable n RATE_LIMIT_WINDOW → n ≤ 9) ∧
      BurstAttainable 10 (RATE_LIMIT_WINDOW + 1) := by
  refine ⟨?_, burst_le_nine, ?_⟩
  · exact ⟨[], some (js "10.0.0.1"),
      [(requestFrom "10.0.0.1", 0), (requestFrom "10.0.0.1", 900000),
        (requestFrom "10.0.0.1", 900000), (requestFrom "10.0.0.1", 900000),
        (requestFrom "10.0.0.1", 900000), (requestFrom "10.0.0.1", 900001),
        (requestFrom "10.0.0.1", 900001), (requestFrom "10.0.0.1", 900001),
        (requestFrom "10.0.0.1", 900001), (requestFrom "10.0.0.1", 900001)],
      900000, by decide, by decide, by decide⟩
  · exact ⟨[], some (js "10.0.0.1"),
      [(requestFrom "10.0.0.1", 0), (requestFrom "10.0.0.1", 0),
        (requestFrom "10.0.0.1", 0), (requestFrom "10.0.0.1", 0),
        (requestFrom "10.0.0.1", 0), (requestFrom "10.0.0.1", 900001),
        (requestFrom "10.0.0.1", 900001), (requestFrom "10.0.0.1", 900001),
        (requestFrom "10.0.0.1", 900001), (requestFrom "10.0.0.1", 900001)],
      0, by decide, by decide, by decide⟩

end Booking
